import Mathlib

/-!
Shallow embedding of the mineping protocol codec and connection state machine
(`src/lib/varint.js`, `src/lib/java.js`, `src/lib/bedrock.js`).

Conventions used throughout:
* JavaScript byte buffers are modelled as `List Nat`, one element per byte.
* JavaScript strings are modelled by their UTF-8 byte sequences (`List Nat`);
  splitting a string on a one-byte separator coincides with splitting its
  UTF-8 bytes, because a single-byte code point never occurs inside a
  multi-byte UTF-8 sequence.
* JavaScript numbers flowing through the bitwise operators of the varint
  codec are modelled as `Int` before the unsigned coercion and as a `Nat`
  bit pattern afterwards, with 32-bit truncation written as `% 2 ^ 32`.
* Fallible code returns `Except`.
-/

namespace Mineping

/-- Error codes of the varint codec (`VarIntError.code` in `src/lib/varint.js`). -/
inductive VarIntError
  | bufferUnderflow
  | malformed
  | encodeTooLarge
deriving DecidableEq

/-- Result of `decodeVarInt`: the decoded value and the bytes consumed. -/
structure VarIntResult where
  value : Int
  bytesRead : Nat
deriving DecidableEq

/-- JavaScript `ToUint32`: the unsigned 32-bit image of a number under the
bitwise operators.  Any JavaScript number is first truncated to an integer by
`ToUint32`, so `Int` covers the whole input domain. -/
def toUint32 (v : Int) : Nat := (v % (2 ^ 32 : Int)).toNat

/-- JavaScript `ToInt32`: reinterpret the low 32 bits of a natural-number bit
pattern as a signed 32-bit integer (the result type of the `|=` accumulation
in `decodeVarInt`). -/
def toInt32 (n : Nat) : Int :=
  if n % 2 ^ 32 < 2 ^ 31 then ((n % 2 ^ 32 : Nat) : Int)
  else ((n % 2 ^ 32 : Nat) : Int) - 2 ^ 32

/-- The `while (true)` loop of `encodeVarInt` (`src/lib/varint.js` lines
33-50).  The second argument is the remaining byte budget `5 - written`: the
loop writes one byte per iteration, and the guard `written >= 5 && val > 0`
raises `EncodeTooLarge` exactly when the budget is exhausted while the shifted
value is still nonzero, so recursion on the budget is a faithful rendering of
the loop.  After the first `>>>= 7` the value is an unsigned 32-bit number, so
the iteration state is a `Nat`. -/
def encodeVarIntGo (val : Nat) : Nat → Except VarIntError (List Nat)
  | 0 => .error .encodeTooLarge
  | budget + 1 =>
    let byte := val &&& 127
    let val2 := val >>> 7
    if val2 = 0 then .ok [byte]
    else
      match encodeVarIntGo val2 budget with
      | .ok rest => .ok ((byte ||| 128) :: rest)
      | .error e => .error e

/-- `encodeVarInt` (`src/lib/varint.js` lines 28-53).  The first loop
iteration applies the JavaScript unsigned coercion to the argument; `val &
0x7f` on the `ToInt32` image agrees with `toUint32 value % 128` because
`ToInt32` and `ToUint32` coincide modulo `2 ^ 32`. -/
def encodeVarInt (value : Int) : Except VarIntError (List Nat) :=
  encodeVarIntGo (toUint32 value) 5

/-- `encodeString`: `Buffer.from(value, "utf-8")`.  Strings are modelled by
their UTF-8 byte sequences, so the embedding is the identity. -/
def encodeString (value : List Nat) : List Nat := value

/-- `encodeUShort`: `writeUInt16BE`, big-endian 16-bit encoding.  Node asserts
`0 <= value < 2^16`; callers pass valid ports. -/
def encodeUShort (value : Nat) : List Nat := [value / 256 % 256, value % 256]

/-- `concatPackets`: concatenate the chunks and put the varint-encoded payload
length in front. -/
def concatPackets (chunks : List (List Nat)) : Except VarIntError (List Nat) :=
  let payload := chunks.flatten
  match encodeVarInt (payload.length : Int) with
  | .ok lengthBytes => .ok (lengthBytes ++ payload)
  | .error e => .error e

/-- The `for (let i = 0; i < 4; i++)` loop of `decodeVarInt`
(`src/lib/varint.js` lines 114-132); the last argument is the remaining fuel
`4 - i`.  The JavaScript accumulator `val` is a signed 32-bit integer; its bit
pattern is carried as a `Nat` below `2 ^ 32` (`val |= (byte & 0x7f) <<
position` truncates the shifted summand to 32 bits), and the signed reading is
restored by `toInt32` at the point of return. -/
def decodeVarIntLoop (buffer : List Nat) (currentOffset val position bytesRead : Nat) :
    Nat → Except VarIntError VarIntResult
  | 0 => .error .malformed
  | fuel + 1 =>
    if buffer.length ≤ currentOffset then .error .bufferUnderflow
    else
      let byte := buffer.getD currentOffset 0
      let val2 := (val ||| ((byte &&& 127) <<< position % 2 ^ 32)) % 2 ^ 32
      if byte &&& 128 = 0 then .ok { value := toInt32 val2, bytesRead := bytesRead + 1 }
      else decodeVarIntLoop buffer (currentOffset + 1) val2 (position + 7) (bytesRead + 1) fuel

/-- `decodeVarInt` (`src/lib/varint.js` lines 94-138), including the
single-byte fast path. -/
def decodeVarInt (buffer : List Nat) (offset : Nat) : Except VarIntError VarIntResult :=
  if buffer.length ≤ offset then .error .bufferUnderflow
  else
    let firstByte := buffer.getD offset 0
    if firstByte &&& 128 = 0 then .ok { value := (firstByte : Int), bytesRead := 1 }
    else decodeVarIntLoop buffer (offset + 1) (firstByte &&& 127) 7 1 4

/-- Proof-side description of the bytes `encodeVarInt` emits for the unsigned
value `u`: base-128 digits, least significant first, continuation bit on every
byte but the last. -/
def encBytes (u : Nat) : List Nat :=
  if u < 128 then [u] else (u % 128 + 128) :: encBytes (u / 128)
termination_by u
decreasing_by exact Nat.div_lt_self (by omega) (by omega)

/-- Terminal error causes raised inside `processResponse` (`src/lib/java.js`). -/
inductive ProcessError
  | varint (e : VarIntError)
  | unexpectedPacketId
  | jsonParse
deriving DecidableEq

/-- `Buffer#subarray(start, stop)`: indices are clamped to `[0, length]`,
negative indices count from the end, and a range with `stop ≤ start` is
empty. -/
def jsSubarray (buf : List Nat) (start stop : Int) : List Nat :=
  let len : Int := (buf.length : Int)
  let s := min (max (if start < 0 then len + start else start) 0) len
  let e := min (max (if stop < 0 then len + stop else stop) 0) len
  if e ≤ s then [] else (buf.drop s.toNat).take (e - s).toNat

/-- The `try` block of `processResponse` (`src/lib/java.js` lines 69-106):
`.ok none` is an explicit `return null` (wait for more data), `.error` a
thrown exception.  `parse` stands for `JSON.parse` on the extracted body
bytes, returning `none` where `JSON.parse` would throw. -/
def processResponseBody {α : Type} (parse : List Nat → Option α) (buffer : List Nat) :
    Except ProcessError (Option (α × List Nat)) :=
  match decodeVarInt buffer 0 with
  | .error e => .error (.varint e)
  | .ok packetLengthResult =>
    let offset := packetLengthResult.bytesRead
    if (buffer.length : Int) < (offset : Int) + packetLengthResult.value then .ok none
    else
      match decodeVarInt buffer offset with
      | .error e => .error (.varint e)
      | .ok packetIdResult =>
        if packetIdResult.value ≠ 0 then .error .unexpectedPacketId
        else
          let offset2 := offset + packetIdResult.bytesRead
          match decodeVarInt buffer offset2 with
          | .error e => .error (.varint e)
          | .ok jsonLengthResult =>
            let offset3 := offset2 + jsonLengthResult.bytesRead
            if (buffer.length : Int) < (offset3 : Int) + jsonLengthResult.value then .ok none
            else
              let jsonBytes := jsSubarray buffer (offset3 : Int) ((offset3 : Int) + jsonLengthResult.value)
              match parse jsonBytes with
              | none => .error .jsonParse
              | some response =>
                .ok (some (response,
                  jsSubarray buffer ((offset3 : Int) + jsonLengthResult.value) (buffer.length : Int)))

/-- `processResponse` with its `catch` clause: a varint buffer underflow
raised anywhere in the body is converted to the recoverable `null` (wait for
more data); every other exception propagates. -/
def processResponse {α : Type} (parse : List Nat → Option α) (buffer : List Nat) :
    Except ProcessError (Option (α × List Nat)) :=
  match processResponseBody parse buffer with
  | .error (.varint .bufferUnderflow) => .ok none
  | r => r

/-- `createHandshakePacket` (`src/lib/java.js` lines 35-48): packet ID 0,
protocol version, length-prefixed host bytes, big-endian port, next state 1,
all length-framed by `concatPackets`. -/
def createHandshakePacket (host : List Nat) (port : Nat) (protocolVersion : Int) :
    Except VarIntError (List Nat) :=
  let hostBuffer := encodeString host
  match encodeVarInt 0 with
  | .error e => .error e
  | .ok packetId =>
    match encodeVarInt protocolVersion with
    | .error e => .error e
    | .ok pv =>
      match encodeVarInt (hostBuffer.length : Int) with
      | .error e => .error e
      | .ok hostLen =>
        match encodeVarInt 1 with
        | .error e => .error e
        | .ok nextState =>
          concatPackets [packetId, pv, hostLen, hostBuffer, encodeUShort port, nextState]

/-- `createStatusRequestPacket` (`src/lib/java.js` lines 54-59). -/
def createStatusRequestPacket : Except VarIntError (List Nat) :=
  match encodeVarInt 0 with
  | .error e => .error e
  | .ok packetId => concatPackets [packetId]

/-- SRV substitution in `pingJava` (lines 140-150): when the lookup yields a
record its name and port become the dial target, otherwise the caller-supplied
host and fallback port are used. -/
def resolveTarget (host : List Nat) (fallbackPort : Nat) (srv : Option (List Nat × Nat)) :
    List Nat × Nat :=
  match srv with
  | some record => record
  | none => (host, fallbackPort)

/-- The two writes performed by the `connect` handler of `pingJava` (lines
203-222): the handshake is built from the ORIGINAL `host` argument together
with the resolved target port, followed by the status request packet. -/
def connectWrites (host : List Nat) (fallbackPort : Nat) (srv : Option (List Nat × Nat))
    (protocolVersion : Int) : Except VarIntError (List Nat × List Nat) :=
  match createHandshakePacket host (resolveTarget host fallbackPort srv).2 protocolVersion with
  | .error e => .error e
  | .ok handshake =>
    match createStatusRequestPacket with
    | .error e => .error e
    | .ok statusRequest => .ok (handshake, statusRequest)

/-- Failure causes routed through the `pingJava` promise. -/
inductive JavaError
  | transport (message : List Nat)
  | timeoutErr
  | prematureClose
  | protocol (e : ProcessError)
deriving DecidableEq

/-- A settlement of the `pingJava` promise. -/
inductive JavaOutcome
  | resolved (response : List Nat)
  | rejected (e : JavaError)
deriving DecidableEq

/-- Socket events dispatched to the handlers registered by `pingJava` (lines
189-246).  The timeout task fires the error handler with a dedicated error, so
it appears as an `errorEvt`; `dataComplete` abstracts a `data` event whose
accumulated buffer yields a full parsed response, `dataWait` one that does
not. -/
inductive JavaEvent
  | errorEvt (e : JavaError)
  | closeEvt
  | dataComplete (response : List Nat)
  | dataWait
deriving DecidableEq

/-- Observable per-request state of `pingJava`: the cleanup guard, how often
the socket was destroyed and the timeout cleared, and the settlements accepted
by the promise. -/
structure JavaState where
  isCleanupCompleted : Bool
  destroyCalls : Nat
  clearTimeoutCalls : Nat
  settled : List JavaOutcome
deriving DecidableEq

/-- Fresh request state. -/
def javaInit : JavaState :=
  { isCleanupCompleted := false, destroyCalls := 0, clearTimeoutCalls := 0, settled := [] }

/-- The `cleanup` closure of `pingJava` (lines 176-182): guarded by
`isCleanupCompleted`, clears the timeout and destroys the socket once. -/
def javaCleanup (s : JavaState) : JavaState :=
  if s.isCleanupCompleted then s
  else { s with isCleanupCompleted := true,
                clearTimeoutCalls := s.clearTimeoutCalls + 1,
                destroyCalls := s.destroyCalls + 1 }

/-- Promise settlement semantics: only the first `resolve`/`reject` call is
recorded, later calls are dropped. -/
def javaSettle (s : JavaState) (o : JavaOutcome) : JavaState :=
  match s.settled with
  | [] => { s with settled := [o] }
  | _ => s

/-- One step of the `pingJava` event handlers (lines 189-246): an error event
runs cleanup then rejects; a close event rejects with the dedicated premature
close error only if cleanup has not run; a completed response runs cleanup
then resolves; incomplete data leaves the state unchanged. -/
def javaStep (s : JavaState) : JavaEvent → JavaState
  | .errorEvt e => javaSettle (javaCleanup s) (.rejected e)
  | .closeEvt =>
    if s.isCleanupCompleted then s
    else javaSettle (javaCleanup s) (.rejected .prematureClose)
  | .dataComplete r => javaSettle (javaCleanup s) (.resolved r)
  | .dataWait => s

/-- Run a `pingJava` request against a sequence of socket events. -/
def runJava (events : List JavaEvent) : JavaState := events.foldl javaStep javaInit

/-- The settlement a terminal event produces when it arrives first (the
`dataWait` case is never used under the terminal-event hypothesis). -/
def javaOutcomeOf : JavaEvent → JavaOutcome
  | .errorEvt e => .rejected e
  | .closeEvt => .rejected .prematureClose
  | .dataComplete r => .resolved r
  | .dataWait => .rejected .prematureClose

/-- Exceptions thrown by the JavaScript `BigInt` conversion. -/
inductive JsError
  | typeError
  | syntaxError
deriving DecidableEq

/-- Errors raised while parsing a Bedrock pong (`src/lib/bedrock.js`). -/
inductive BedrockError
  | invalidMotd
  | guidThrow (e : JsError)
  | pongTooSmall
  | unexpectedPongId
  | motdLengthExceeds
deriving DecidableEq

/-- Accumulate decimal digit bytes; `none` on the first non-digit. -/
def decDigits : List Nat → Nat → Option Nat
  | [], acc => some acc
  | b :: rest, acc =>
    if 48 ≤ b ∧ b ≤ 57 then decDigits rest (acc * 10 + (b - 48)) else none

/-- Optional-sign decimal integer reading shared by the `Number` and `BigInt`
models (`none` for the empty string or a lone sign, which are handled by the
callers). -/
def readSignedDec : List Nat → Option Int
  | 45 :: rest => if rest = [] then none else (decDigits rest 0).map (fun n => -(n : Int))
  | 43 :: rest => if rest = [] then none else (decDigits rest 0).map (fun n => (n : Int))
  | bytes => if bytes = [] then none else (decDigits bytes 0).map (fun n => (n : Int))

/-- JavaScript `Number(x)` restricted to the value domain used by the MOTD
record: `undefined` and non-numeric strings give `NaN` (modelled as `none`),
the empty string gives `0`, optional-sign decimal integer strings give their
value. -/
def jsNumber : Option (List Nat) → Option Int
  | none => none
  | some [] => some 0
  | some bytes => readSignedDec bytes

/-- JavaScript `BigInt(x)` on the same domain: `undefined` raises `TypeError`,
non-numeric strings raise `SyntaxError`, the empty string is `0`, and
optional-sign decimal integer strings give their value. -/
def jsBigInt : Option (List Nat) → Except JsError Int
  | none => .error .typeError
  | some [] => .ok 0
  | some bytes =>
    match readSignedDec bytes with
    | some v => .ok v
    | none => .error .syntaxError

/-- JavaScript `String#split(";")` on UTF-8 byte strings; the separator is the
single byte 59. -/
def splitOnSemi : List Nat → List (List Nat)
  | [] => [[]]
  | b :: rest =>
    if b = 59 then [] :: splitOnSemi rest
    else
      match splitOnSemi rest with
      | [] => [[b]]
      | field :: fields => (b :: field) :: fields

/-- The raw MOTD record (`BedrockMotd` typedef in `src/lib/bedrock.js`): one
slot per positional field of the semicolon-delimited string.  Absent trailing
fields are `none` (JavaScript `undefined`); a `NaN` number is the inner
`none`. -/
structure BedrockMotd where
  edition : Option (List Nat)
  name : Option (List Nat)
  protocol : Option Int
  version : Option (List Nat)
  playerCount : Option Int
  playerMax : Option Int
  serverGuid : Int
  subName : Option (List Nat)
  gamemode : Option (List Nat)
  nintendoLimited : Option Bool
  port : Option (Option Int)
  ipv6Port : Option (Option Int)
  editorMode : Option Bool
deriving DecidableEq

/-- `parseMotd` (`src/lib/bedrock.js` lines 81-128).  Positional destructuring
yields `undefined` (`none`) past the end of the split; the `BigInt` conversion
of the server GUID slot is the only field conversion that can throw, so it is
sequenced first while every other field is converted exactly as in the object
literal. -/
def parseMotd (motdString : List Nat) : Except BedrockError BedrockMotd :=
  let parts := splitOnSemi motdString
  if parts.length < 5 then .error .invalidMotd
  else
    match jsBigInt parts[6]? with
    | .error e => .error (.guidThrow e)
    | .ok serverGuid =>
      .ok { edition := parts[0]?
            name := parts[1]?
            protocol := jsNumber parts[2]?
            version := parts[3]?
            playerCount := jsNumber parts[4]?
            playerMax := jsNumber parts[5]?
            serverGuid := serverGuid
            subName := parts[7]?
            gamemode := parts[8]?
            nintendoLimited :=
              if parts[9]? = some [48] then some true
              else if parts[9]? = some [49] then some false
              else none
            port :=
              match parts[10]? with
              | none => none
              | some [] => none
              | some s => some (jsNumber (some s))
            ipv6Port :=
              match parts[11]? with
              | none => none
              | some [] => none
              | some s => some (jsNumber (some s))
            editorMode :=
              match parts[12]? with
              | none => none
              | some [] => none
              | some s =>
                match jsNumber (some s) with
                | some v => some (if v = 0 then false else true)
                | none => some false }

/-- Version sub-object of the public response. -/
structure BedrockVersionField where
  protocol : Option Int
  minecraft : Option (List Nat)
deriving DecidableEq

/-- Players sub-object of the public response. -/
structure BedrockPlayersField where
  online : Option Int
  max : Option Int
deriving DecidableEq

/-- Port sub-object of the public response. -/
structure BedrockPortField where
  v4 : Option (Option Int)
  v6 : Option (Option Int)
deriving DecidableEq

/-- The public `BedrockPingResponse` shape. -/
structure BedrockPingResponse where
  edition : Option (List Nat)
  name : Option (List Nat)
  levelName : Option (List Nat)
  gamemode : Option (List Nat)
  version : BedrockVersionField
  players : BedrockPlayersField
  port : BedrockPortField
  guid : Int
  isNintendoLimited : Option Bool
  isEditorModeEnabled : Option Bool
deriving DecidableEq

/-- `transformMotd` (`src/lib/bedrock.js` lines 135-157): raw record into the
nested public response shape. -/
def transformMotd (motd : BedrockMotd) : BedrockPingResponse :=
  { edition := motd.edition
    name := motd.name
    levelName := motd.subName
    gamemode := motd.gamemode
    version := { protocol := motd.protocol, minecraft := motd.version }
    players := { online := motd.playerCount, max := motd.playerMax }
    port := { v4 := motd.port, v6 := motd.ipv6Port }
    guid := motd.serverGuid
    isNintendoLimited := motd.nintendoLimited
    isEditorModeEnabled := motd.editorMode }

/-- `readUInt16BE`: big-endian 16-bit read at a fixed offset. -/
def readUInt16BE (buf : List Nat) (offset : Nat) : Nat :=
  buf.getD offset 0 * 256 + buf.getD (offset + 1) 0

/-- The envelope phase of `parseUnconnectedPong` (`src/lib/bedrock.js` lines
165-189): minimum length check, leading ID byte check (`0x1c` = 28), and the
bounds-checked extraction of the length-prefixed MOTD bytes at offset 35. -/
def extractMotdBytes (pongPacket : List Nat) : Except BedrockError (List Nat) :=
  if pongPacket.length < 35 then .error .pongTooSmall
  else if pongPacket.getD 0 0 ≠ 28 then .error .unexpectedPongId
  else
    let motdLength := readUInt16BE pongPacket 33
    if pongPacket.length < 35 + motdLength then .error .motdLengthExceeds
    else .ok ((pongPacket.drop 35).take motdLength)

/-- `parseUnconnectedPong` (`src/lib/bedrock.js` lines 165-195). -/
def parseUnconnectedPong (pongPacket : List Nat) : Except BedrockError BedrockPingResponse :=
  match extractMotdBytes pongPacket with
  | .error e => .error e
  | .ok motdString =>
    match parseMotd motdString with
    | .error e => .error e
    | .ok rawMotd => .ok (transformMotd rawMotd)

/-- Failure causes routed through the `pingBedrock` promise. -/
inductive BedrockReject
  | transport (message : List Nat)
  | timeoutErr
  | protocol (e : BedrockError)
deriving DecidableEq

/-- A settlement of the `pingBedrock` promise. -/
inductive BedrockOutcome
  | resolved (response : BedrockPingResponse)
  | rejected (e : BedrockReject)
deriving DecidableEq

/-- Socket events dispatched to the handlers registered by `pingBedrock`
(lines 233-249); the timeout task fires the error handler. -/
inductive BedrockEvent
  | errorEvt (e : BedrockReject)
  | message (datagram : List Nat)
deriving DecidableEq

/-- Observable per-request state of `pingBedrock`. -/
structure BedrockState where
  isCleanupCompleted : Bool
  closeCalls : Nat
  clearTimeoutCalls : Nat
  settled : List BedrockOutcome
deriving DecidableEq

/-- Fresh request state. -/
def bedrockInit : BedrockState :=
  { isCleanupCompleted := false, closeCalls := 0, clearTimeoutCalls := 0, settled := [] }

/-- The `cleanup` closure of `pingBedrock` (lines 225-231). -/
def bedrockCleanup (s : BedrockState) : BedrockState :=
  if s.isCleanupCompleted then s
  else { s with isCleanupCompleted := true,
                clearTimeoutCalls := s.clearTimeoutCalls + 1,
                closeCalls := s.closeCalls + 1 }

/-- Promise settlement semantics: only the first call is recorded. -/
def bedrockSettle (s : BedrockState) (o : BedrockOutcome) : BedrockState :=
  match s.settled with
  | [] => { s with settled := [o] }
  | _ => s

/-- One step of the `pingBedrock` event handlers (lines 233-249): a socket
error rejects via cleanup; a datagram either resolves with the parsed MOTD or
re-emits the parse error into the error handler. -/
def bedrockStep (s : BedrockState) : BedrockEvent → BedrockState
  | .errorEvt e => bedrockSettle (bedrockCleanup s) (.rejected e)
  | .message datagram =>
    match parseUnconnectedPong datagram with
    | .ok motd => bedrockSettle (bedrockCleanup s) (.resolved motd)
    | .error e => bedrockSettle (bedrockCleanup s) (.rejected (.protocol e))

/-- Run a `pingBedrock` request against a sequence of socket events. -/
def runBedrock (events : List BedrockEvent) : BedrockState :=
  events.foldl bedrockStep bedrockInit

/-- The settlement a bedrock event produces when it arrives first. -/
def bedrockOutcomeOf : BedrockEvent → BedrockOutcome
  | .errorEvt e => .rejected e
  | .message datagram =>
    match parseUnconnectedPong datagram with
    | .ok motd => .resolved motd
    | .error e => .rejected (.protocol e)

/-- ASCII byte strings for concrete test vectors. -/
def asciiBytes (s : String) : List Nat := s.toList.map Char.toNat

/-! ## Bit-level helper lemmas -/

theorem and127_eq_mod (x : Nat) : x &&& 127 = x % 128 := by
  have h : (127 : Nat) = 2 ^ 7 - 1 := by norm_num
  rw [h, Nat.and_pow_two_sub_one_eq_mod]

theorem and128_eq_zero {x : Nat} (h : x < 128) : x &&& 128 = 0 := by
  apply Nat.eq_of_testBit_eq
  intro i
  have h128 : (128 : Nat) = 2 ^ 7 := by norm_num
  simp only [Nat.testBit_and, Nat.zero_testBit, h128, Nat.testBit_two_pow]
  rcases eq_or_ne (7 : Nat) i with rfl | hne
  · simp [Nat.testBit_lt_two_pow (show x < 2 ^ 7 by omega)]
  · simp [hne]

theorem and128_eq_self {x : Nat} (h1 : 128 ≤ x) (h2 : x < 256) : x &&& 128 = 128 := by
  apply Nat.eq_of_testBit_eq
  intro i
  have h128 : (128 : Nat) = 2 ^ 7 := by norm_num
  simp only [Nat.testBit_and, h128, Nat.testBit_two_pow]
  rcases eq_or_ne (7 : Nat) i with rfl | hne
  · have hx : x.testBit 7 = true := by
      rw [Nat.testBit_to_div_mod]
      have hq : x / 2 ^ 7 = 1 := by omega
      rw [hq]
      rfl
    simp [hx]
  · simp [hne]

theorem lor_disjoint {k a : Nat} (b : Nat) (h : a < 2 ^ k) :
    a ||| 2 ^ k * b = 2 ^ k * b + a := by
  rw [Nat.lor_comm]
  exact (Nat.mul_add_lt_is_or h b).symm

theorem lor128 {a : Nat} (h : a < 128) : a ||| 128 = a + 128 := by
  have h7 : a < 2 ^ 7 := by omega
  have := lor_disjoint (k := 7) 1 h7
  simpa [Nat.add_comm] using this

/-! ## Characterization of the encoder -/

theorem encBytes_ne_nil (u : Nat) : encBytes u ≠ [] := by
  rw [encBytes]
  split <;> simp

theorem encBytes_length_le {u b : Nat} (h : u < 128 ^ b) : (encBytes u).length ≤ max b 1 := by
  induction b generalizing u with
  | zero =>
    have hu : u = 0 := by simpa using h
    subst hu
    rw [encBytes]
    simp
  | succ n ih =>
    rw [encBytes]
    split
    · simp
    · rename_i hge
      push_neg at hge
      have hdiv : u / 128 < 128 ^ n := by
        have hpos : 0 < (128 : Nat) := by norm_num
        rw [Nat.div_lt_iff_lt_mul hpos]
        calc u < 128 ^ (n + 1) := h
        _ = 128 ^ n * 128 := by ring
      have hn : 1 ≤ n := by
        rcases Nat.eq_zero_or_pos n with rfl | hpos
        · simp at hdiv; omega
        · exact hpos
      have := ih hdiv
      simp only [List.length_cons]
      omega

theorem encodeVarIntGo_eq {u b : Nat} (hb : 1 ≤ b) (h : u < 128 ^ b) :
    encodeVarIntGo u b = .ok (encBytes u) := by
  induction b generalizing u with
  | zero => omega
  | succ n ih =>
    have hshift : u >>> 7 = u / 128 := by
      rw [Nat.shiftRight_eq_div_pow]
    rcases Nat.eq_zero_or_pos (u / 128) with hz | hpos
    · have hlt : u < 128 := by omega
      rw [encBytes, if_pos hlt]
      simp [encodeVarIntGo, hshift, hz, and127_eq_mod, Nat.mod_eq_of_lt hlt]
    · have hge : 128 ≤ u := by
        by_contra hlt
        push_neg at hlt
        omega
      have hn : 1 ≤ n := by
        rcases Nat.eq_zero_or_pos n with rfl | hp
        · have : u < 128 := by simpa using h
          omega
        · exact hp
      have hdiv : u / 128 < 128 ^ n := by
        have hpos128 : 0 < (128 : Nat) := by norm_num
        rw [Nat.div_lt_iff_lt_mul hpos128]
        calc u < 128 ^ (n + 1) := h
        _ = 128 ^ n * 128 := by ring
      have hmodlt : u % 128 < 128 := Nat.mod_lt _ (by norm_num)
      rw [encBytes, if_neg (by omega)]
      simp only [encodeVarIntGo, hshift, ih hn hdiv]
      rw [if_neg (by omega)]
      simp [and127_eq_mod, lor128 hmodlt]

theorem toUint32_lt (v : Int) : toUint32 v < 2 ^ 32 := by
  unfold toUint32
  have h1 : 0 ≤ v % (2 ^ 32 : Int) := Int.emod_nonneg v (by norm_num)
  have h2 : v % (2 ^ 32 : Int) < 2 ^ 32 := Int.emod_lt_of_pos v (by norm_num)
  omega

theorem encodeVarInt_eq (value : Int) :
    encodeVarInt value = .ok (encBytes (toUint32 value)) := by
  unfold encodeVarInt
  apply encodeVarIntGo_eq (by norm_num)
  have := toUint32_lt value
  calc toUint32 value < 2 ^ 32 := this
  _ < 128 ^ 5 := by norm_num

/-- C9.  `encodeVarInt` is total: the unsigned 32-bit coercion performed by
the JavaScript bitwise operators bounds every input to at most five 7-bit
groups, so encoding always succeeds with 1 to 5 bytes and the
`EncodeTooLarge` branch is unreachable.  (`Int` covers every JavaScript
number input, because `ToUint32` first truncates the number to an integer.) -/
theorem encodeVarInt_total (value : Int) :
    ∃ bytes, encodeVarInt value = .ok bytes ∧ 1 ≤ bytes.length ∧ bytes.length ≤ 5 := by
  refine ⟨encBytes (toUint32 value), encodeVarInt_eq value, ?_, ?_⟩
  · have h := encBytes_ne_nil (toUint32 value)
    cases hb : encBytes (toUint32 value) with
    | nil => exact absurd hb h
    | cons a l => simp
  · have h5 : toUint32 value < 128 ^ 5 := by
      have := toUint32_lt value
      calc toUint32 value < 2 ^ 32 := this
      _ < 128 ^ 5 := by norm_num
    have := encBytes_length_le h5
    omega

/-! ## Decoding the encoder's output -/

theorem getD_append_length (l1 l2 : List Nat) (d : Nat) :
    (l1 ++ l2).getD l1.length d = l2.getD 0 d := by
  simp [List.getD_eq_getElem?_getD, List.getElem?_append_right (Nat.le_refl l1.length)]

theorem shiftl_mod32 {m p : Nat} (hp : p ≤ 32) :
    m <<< p % 2 ^ 32 = m % 2 ^ (32 - p) * 2 ^ p := by
  rw [Nat.shiftLeft_eq]
  have h : (2 : Nat) ^ 32 = 2 ^ (32 - p) * 2 ^ p := by
    rw [← pow_add]
    congr 1
    omega
  rw [h, Nat.mul_mod_mul_right]

theorem decodeVarIntLoop_enc :
    ∀ (i m val : Nat) (done : List Nat),
      1 ≤ i → done.length + i = 5 → 1 ≤ done.length → m < 128 ^ i →
      val < 2 ^ (7 * done.length) →
      decodeVarIntLoop (done ++ encBytes m) done.length val (7 * done.length) done.length i =
        .ok { value := toInt32 ((val + m * 2 ^ (7 * done.length)) % 2 ^ 32),
              bytesRead := done.length + (encBytes m).length } := by
  intro i
  induction i with
  | zero => intro m val done h1; omega
  | succ n ih =>
    intro m val done _ hlen hc hm hval
    have hp28 : 7 * done.length ≤ 28 := by omega
    have hne := encBytes_ne_nil m
    have hEmlen : 1 ≤ (encBytes m).length := by
      cases hb : encBytes m with
      | nil => exact absurd hb hne
      | cons a l => simp
    have hbound : ¬((done ++ encBytes m).length ≤ done.length) := by
      simp only [List.length_append]
      omega
    have hbyte : (done ++ encBytes m).getD done.length 0 = (encBytes m).getD 0 0 :=
      getD_append_length done (encBytes m) 0
    have hP2 : (2 : Nat) ^ (32 - 7 * done.length) * 2 ^ (7 * done.length) = 2 ^ 32 := by
      rw [← pow_add]
      congr 1
      omega
    have hple : (2 : Nat) ^ (7 * done.length) ≤ 2 ^ 32 :=
      Nat.pow_le_pow_right (by norm_num) (by omega)
    by_cases h128 : m < 128
    · -- final byte: continuation bit clear, return the accumulated value
      have hEm : encBytes m = [m] := by
        rw [encBytes]
        simp [h128]
      have hbyteval : (done ++ encBytes m).getD done.length 0 = m := by
        rw [hbyte, hEm]
        rfl
      have hq : 2 ^ (7 * done.length) * (m % 2 ^ (32 - 7 * done.length)) + val < 2 ^ 32 := by
        have hlt : m % 2 ^ (32 - 7 * done.length) < 2 ^ (32 - 7 * done.length) :=
          Nat.mod_lt _ (by positivity)
        have hle : 2 ^ (7 * done.length) * (m % 2 ^ (32 - 7 * done.length)) ≤
            2 ^ (7 * done.length) * (2 ^ (32 - 7 * done.length) - 1) :=
          Nat.mul_le_mul_left _ (by omega)
        have hsub : (2 : Nat) ^ (7 * done.length) * (2 ^ (32 - 7 * done.length) - 1) =
            2 ^ 32 - 2 ^ (7 * done.length) := by
          rw [Nat.mul_sub_one]
          rw [mul_comm, hP2]
        omega
      have hmod : (val + m * 2 ^ (7 * done.length)) % 2 ^ 32 =
          2 ^ (7 * done.length) * (m % 2 ^ (32 - 7 * done.length)) + val := by
        have hmm : m * 2 ^ (7 * done.length) % 2 ^ 32 =
            m % 2 ^ (32 - 7 * done.length) * 2 ^ (7 * done.length) := by
          rw [← hP2, Nat.mul_mod_mul_right]
        calc (val + m * 2 ^ (7 * done.length)) % 2 ^ 32
            = (val % 2 ^ 32 + m * 2 ^ (7 * done.length) % 2 ^ 32) % 2 ^ 32 := by
              rw [Nat.add_mod]
        _ = (val + m % 2 ^ (32 - 7 * done.length) * 2 ^ (7 * done.length)) % 2 ^ 32 := by
              rw [hmm, Nat.mod_eq_of_lt (show val < 2 ^ 32 by omega)]
        _ = val + m % 2 ^ (32 - 7 * done.length) * 2 ^ (7 * done.length) := by
              rw [mul_comm (m % 2 ^ (32 - 7 * done.length))]
              exact Nat.mod_eq_of_lt (by omega)
        _ = 2 ^ (7 * done.length) * (m % 2 ^ (32 - 7 * done.length)) + val := by ring
      simp only [decodeVarIntLoop, hbound, if_false]
      rw [hbyteval, and128_eq_zero h128, if_pos rfl, and127_eq_mod, Nat.mod_eq_of_lt h128,
        shiftl_mod32 (show 7 * done.length ≤ 32 by omega),
        mul_comm (m % 2 ^ (32 - 7 * done.length)) (2 ^ (7 * done.length)),
        lor_disjoint _ hval, Nat.mod_eq_of_lt hq, hmod, hEm]
      simp
    · -- continuation byte: accumulate 7 bits and recurse
      push_neg at h128
      have hEm : encBytes m = (m % 128 + 128) :: encBytes (m / 128) := by
        rw [encBytes]
        rw [if_neg (by omega)]
      have hn1 : 1 ≤ n := by
        rcases Nat.eq_zero_or_pos n with rfl | hp
        · have : m < 128 := by simpa using hm
          omega
        · exact hp
      have hp21 : 7 * done.length ≤ 21 := by omega
      have hmodlt : m % 128 < 128 := Nat.mod_lt _ (by norm_num)
      have hbyteval : (done ++ encBytes m).getD done.length 0 = m % 128 + 128 := by
        rw [hbyte, hEm]
        rfl
      have hsmall : m % 128 * 2 ^ (7 * done.length) < 2 ^ 32 := by
        have h1 : m % 128 * 2 ^ (7 * done.length) < 128 * 2 ^ (7 * done.length) :=
          (Nat.mul_lt_mul_right (by positivity)).mpr hmodlt
        have h2 : (128 : Nat) * 2 ^ (7 * done.length) = 2 ^ (7 * done.length + 7) := by
          rw [pow_add]
          ring
        have h3 : (2 : Nat) ^ (7 * done.length + 7) ≤ 2 ^ 32 :=
          Nat.pow_le_pow_right (by norm_num) (by omega)
        omega
      have hval2lt : 2 ^ (7 * done.length) * (m % 128) + val < 2 ^ (7 * (done.length + 1)) := by
        have h1 : 2 ^ (7 * done.length) * (m % 128) ≤ 2 ^ (7 * done.length) * 127 :=
          Nat.mul_le_mul_left _ (by omega)
        have h2 : (2 : Nat) ^ (7 * (done.length + 1)) = 2 ^ (7 * done.length) * 128 := by
          have h7 : 7 * (done.length + 1) = 7 * done.length + 7 := by omega
          rw [h7, pow_add]
          ring
        omega
      have hshift : (m % 128) <<< (7 * done.length) % 2 ^ 32 =
          m % 128 * 2 ^ (7 * done.length) := by
        rw [Nat.shiftLeft_eq]
        exact Nat.mod_eq_of_lt hsmall
      have hfit : 2 ^ (7 * done.length) * (m % 128) + val < 2 ^ 32 := by
        have h3 : (2 : Nat) ^ (7 * (done.length + 1)) ≤ 2 ^ 32 :=
          Nat.pow_le_pow_right (by norm_num) (by omega)
        omega
      have hbuf : done ++ encBytes m = (done ++ [m % 128 + 128]) ++ encBytes (m / 128) := by
        rw [hEm, List.append_assoc]
        rfl
      have hdiv : m / 128 < 128 ^ n := by
        have hpos128 : 0 < (128 : Nat) := by norm_num
        rw [Nat.div_lt_iff_lt_mul hpos128]
        calc m < 128 ^ (n + 1) := hm
        _ = 128 ^ n * 128 := by ring
      have harg : 2 ^ (7 * done.length) * (m % 128) + val <
          2 ^ (7 * (done ++ [m % 128 + 128]).length) := by
        simp only [List.length_append, List.length_cons, List.length_nil]
        have h7 : 7 * (done.length + (0 + 1)) = 7 * (done.length + 1) := by omega
        rw [h7]
        exact hval2lt
      have hcall := ih (m / 128) (2 ^ (7 * done.length) * (m % 128) + val)
        (done ++ [m % 128 + 128]) hn1
        (by simp only [List.length_append, List.length_cons, List.length_nil]; omega)
        (by simp) hdiv harg
      simp only [List.length_append, List.length_cons, List.length_nil] at hcall
      have hlen1 : done.length + (0 + 1) = done.length + 1 := by omega
      rw [hlen1] at hcall
      have hpos7 : 7 * done.length + 7 = 7 * (done.length + 1) := by omega
      simp only [decodeVarIntLoop, hbound, if_false]
      rw [hbyteval, and128_eq_self (by omega) (by omega), if_neg (by norm_num), and127_eq_mod]
      have hb127 : (m % 128 + 128) % 128 = m % 128 := by omega
      rw [hb127, hshift, mul_comm (m % 128) (2 ^ (7 * done.length)), lor_disjoint _ hval,
        Nat.mod_eq_of_lt hfit, hbuf, hpos7, hcall]
      have hAB : 2 ^ (7 * done.length) * (m % 128) + val + m / 128 * 2 ^ (7 * (done.length + 1)) =
          val + m * 2 ^ (7 * done.length) := by
        have hm2 : m = 128 * (m / 128) + m % 128 := (Nat.div_add_mod m 128).symm
        have hpow : (2 : Nat) ^ (7 * (done.length + 1)) = 2 ^ (7 * done.length) * 128 := by
          rw [← hpos7, pow_add]
          ring
        calc 2 ^ (7 * done.length) * (m % 128) + val + m / 128 * 2 ^ (7 * (done.length + 1))
            = 2 ^ (7 * done.length) * (m % 128) + val +
              m / 128 * (2 ^ (7 * done.length) * 128) := by rw [hpow]
        _ = val + (128 * (m / 128) + m % 128) * 2 ^ (7 * done.length) := by ring
        _ = val + m * 2 ^ (7 * done.length) := by rw [← hm2]
      rw [hAB, hEm]
      simp only [List.length_cons]
      have hlen2 : done.length + 1 + (encBytes (m / 128)).length =
          done.length + ((encBytes (m / 128)).length + 1) := by omega
      rw [hlen2]

theorem toInt32_mod (u : Nat) : toInt32 (u % 2 ^ 32) = toInt32 u := by
  unfold toInt32
  rw [Nat.mod_mod_of_dvd u dvd_rfl]

theorem decodeVarInt_encBytes {u : Nat} (hu : u < 2 ^ 32) :
    decodeVarInt (encBytes u) 0 =
      .ok { value := toInt32 u, bytesRead := (encBytes u).length } := by
  have hne := encBytes_ne_nil u
  by_cases h128 : u < 128
  · have hEu : encBytes u = [u] := by
      rw [encBytes]
      simp [h128]
    rw [hEu]
    simp only [decodeVarInt]
    rw [if_neg (by simp), List.getD_cons_zero, and128_eq_zero h128, if_pos rfl]
    have h31 : toInt32 u = (u : Int) := by
      unfold toInt32
      rw [Nat.mod_eq_of_lt (by omega)]
      rw [if_pos (by omega)]
    rw [h31]
    rfl
  · push_neg at h128
    have hEu : encBytes u = (u % 128 + 128) :: encBytes (u / 128) := by
      rw [encBytes]
      rw [if_neg (by omega)]
    have hlenpos : ¬((encBytes u).length ≤ 0) := by
      rw [hEu]
      simp
    have hmodlt : u % 128 < 128 := Nat.mod_lt _ (by norm_num)
    have hget : (encBytes u).getD 0 0 = u % 128 + 128 := by
      rw [hEu]
      rfl
    simp only [decodeVarInt]
    rw [if_neg hlenpos, hget, and128_eq_self (by omega) (by omega), if_neg (by norm_num),
      and127_eq_mod]
    have hb127 : (u % 128 + 128) % 128 = u % 128 := by omega
    rw [hb127]
    have hdiv : u / 128 < 128 ^ 4 := by
      have h25 : u / 128 < 2 ^ 25 := by omega
      calc u / 128 < 2 ^ 25 := h25
      _ ≤ 128 ^ 4 := by norm_num
    have hcall := decodeVarIntLoop_enc 4 (u / 128) (u % 128) [u % 128 + 128]
      (by norm_num) (by simp) (by simp) hdiv (by simpa using hmodlt)
    norm_num at hcall
    rw [hEu]
    simp only [Nat.zero_add]
    rw [hcall]
    have hval : u % 128 + u / 128 * 128 = u := by omega
    rw [hval, Nat.mod_eq_of_lt (show u < 4294967296 by omega)]
    simp [Nat.add_comm]

theorem toInt32_toUint32 {v : Int} (h1 : -(2 ^ 31) ≤ v) (h2 : v < 2 ^ 31) :
    toInt32 (toUint32 v) = v := by
  unfold toInt32 toUint32
  split <;> omega

/-- C1.  Varint round trip: every 32-bit integer `v` (in particular 0, 1, 127,
128, 255, 16383, 16384, 2147483647, -1) encodes successfully, decoding the
encoding from offset 0 returns exactly `v` with `bytesRead` equal to the
encoding's length (the decoder reconstructs the signed value through the
32-bit `|=` accumulation, matching the encoder's unsigned two's-complement
storage convention), 0 encodes to the single byte 0x00, and -1 encodes to the
5-byte all-ones unsigned pattern. -/
theorem varint_roundtrip (v : Int) (h1 : -(2 ^ 31) ≤ v) (h2 : v < 2 ^ 31) :
    ∃ bytes, encodeVarInt v = .ok bytes ∧
      decodeVarInt bytes 0 = .ok { value := v, bytesRead := bytes.length } ∧
      (v = 0 → bytes = [0]) ∧ (v = -1 → bytes = [255, 255, 255, 255, 15]) := by
  refine ⟨encBytes (toUint32 v), encodeVarInt_eq v, ?_, ?_, ?_⟩
  · rw [decodeVarInt_encBytes (toUint32_lt v), toInt32_toUint32 h1 h2]
  · rintro rfl
    have h0 : toUint32 0 = 0 := by
      unfold toUint32
      norm_num
    rw [h0, encBytes]
    norm_num
  · rintro rfl
    have hm1 : toUint32 (-1) = 4294967295 := by
      unfold toUint32
      norm_num
      rfl
    rw [hm1]
    have e1 : encBytes 4294967295 = 255 :: encBytes 33554431 := by
      rw [encBytes]
      norm_num
    have e2 : encBytes 33554431 = 255 :: encBytes 262143 := by
      rw [encBytes]
      norm_num
    have e3 : encBytes 262143 = 255 :: encBytes 2047 := by
      rw [encBytes]
      norm_num
    have e4 : encBytes 2047 = 255 :: encBytes 15 := by
      rw [encBytes]
      norm_num
    have e5 : encBytes 15 = [15] := by
      rw [encBytes]
      norm_num
    rw [e1, e2, e3, e4, e5]

/-- Witness for C1 at the concrete input -1. -/
theorem varint_roundtrip_witness :
    -(2 ^ 31) ≤ (-1 : Int) ∧ (-1 : Int) < 2 ^ 31 ∧
      ∃ bytes, encodeVarInt (-1) = .ok bytes ∧
        decodeVarInt bytes 0 = .ok { value := -1, bytesRead := bytes.length } ∧
        ((-1 : Int) = 0 → bytes = [0]) ∧
        ((-1 : Int) = -1 → bytes = [255, 255, 255, 255, 15]) :=
  ⟨by norm_num, by norm_num, varint_roundtrip (-1) (by norm_num) (by norm_num)⟩

/-! ## Error discrimination of the decoder -/

theorem decodeVarIntLoop_ne_tooLarge :
    ∀ (i : Nat) (buffer : List Nat) (c val p br : Nat),
      decodeVarIntLoop buffer c val p br i ≠ .error .encodeTooLarge := by
  intro i
  induction i with
  | zero =>
    intro buffer c val p br
    simp [decodeVarIntLoop]
  | succ n ih =>
    intro buffer c val p br
    simp only [decodeVarIntLoop]
    by_cases hce : buffer.length ≤ c
    · rw [if_pos hce]
      simp
    · rw [if_neg hce]
      by_cases hterm : buffer.getD c 0 &&& 128 = 0
      · rw [if_pos hterm]
        simp
      · rw [if_neg hterm]
        exact ih buffer (c + 1) _ (p + 7) (br + 1)

theorem decodeVarIntLoop_underflow_iff :
    ∀ (i : Nat) (buffer : List Nat) (c val p br : Nat), c ≤ buffer.length →
      (decodeVarIntLoop buffer c val p br i = .error .bufferUnderflow ↔
        (buffer.length < c + i ∧
          ∀ j, c + j < buffer.length → buffer.getD (c + j) 0 &&& 128 ≠ 0)) := by
  intro i
  induction i with
  | zero =>
    intro buffer c val p br hc
    simp only [decodeVarIntLoop]
    constructor
    · intro h
      exact absurd h (by simp)
    · rintro ⟨h1, _⟩
      exfalso
      omega
  | succ n ih =>
    intro buffer c val p br hc
    simp only [decodeVarIntLoop]
    by_cases hce : buffer.length ≤ c
    · rw [if_pos hce]
      constructor
      · intro _
        exact ⟨by omega, fun j hj => absurd hj (by omega)⟩
      · intro _
        rfl
    · rw [if_neg hce]
      push_neg at hce
      by_cases hterm : buffer.getD c 0 &&& 128 = 0
      · rw [if_pos hterm]
        constructor
        · intro h
          exact absurd h (by simp)
        · rintro ⟨h1, h2⟩
          exact absurd hterm (h2 0 (by omega))
      · rw [if_neg hterm]
        rw [ih buffer (c + 1) _ (p + 7) (br + 1) (by omega)]
        constructor
        · rintro ⟨h1, h2⟩
          refine ⟨by omega, ?_⟩
          intro j hj
          cases j with
          | zero => simpa using hterm
          | succ j' =>
            have hj' := h2 j' (by omega)
            have e : c + 1 + j' = c + (j' + 1) := by omega
            rwa [e] at hj'
        · rintro ⟨h1, h2⟩
          refine ⟨by omega, ?_⟩
          intro j hj
          have hj' := h2 (j + 1) (by omega)
          have e : c + (j + 1) = c + 1 + j := by omega
          rwa [e] at hj'

theorem decodeVarIntLoop_malformed_iff :
    ∀ (i : Nat) (buffer : List Nat) (c val p br : Nat), c ≤ buffer.length →
      (decodeVarIntLoop buffer c val p br i = .error .malformed ↔
        ∀ j, j < i → c + j < buffer.length ∧ buffer.getD (c + j) 0 &&& 128 ≠ 0) := by
  intro i
  induction i with
  | zero =>
    intro buffer c val p br hc
    simp [decodeVarIntLoop]
  | succ n ih =>
    intro buffer c val p br hc
    simp only [decodeVarIntLoop]
    by_cases hce : buffer.length ≤ c
    · rw [if_pos hce]
      constructor
      · intro h
        exact absurd h (by simp)
      · intro h
        exact absurd (h 0 (by omega)).1 (by omega)
    · rw [if_neg hce]
      push_neg at hce
      by_cases hterm : buffer.getD c 0 &&& 128 = 0
      · rw [if_pos hterm]
        constructor
        · intro h
          exact absurd h (by simp)
        · intro h
          exact absurd hterm (h 0 (by omega)).2
      · rw [if_neg hterm]
        rw [ih buffer (c + 1) _ (p + 7) (br + 1) (by omega)]
        constructor
        · intro h j hj
          cases j with
          | zero => exact ⟨by omega, by simpa using hterm⟩
          | succ j' =>
            have hj' := h j' (by omega)
            have e : c + 1 + j' = c + (j' + 1) := by omega
            rw [e] at hj'
            exact ⟨hj'.1, hj'.2⟩
        · intro h j hj
          have hj' := h (j + 1) (by omega)
          have e : c + (j + 1) = c + 1 + j := by omega
          rw [e] at hj'
          exact ⟨hj'.1, hj'.2⟩

theorem decodeVarInt_ne_tooLarge (buffer : List Nat) (offset : Nat) :
    decodeVarInt buffer offset ≠ .error .encodeTooLarge := by
  simp only [decodeVarInt]
  by_cases hoff : buffer.length ≤ offset
  · rw [if_pos hoff]
    simp
  · rw [if_neg hoff]
    by_cases hterm : buffer.getD offset 0 &&& 128 = 0
    · rw [if_pos hterm]
      simp
    · rw [if_neg hterm]
      exact decodeVarIntLoop_ne_tooLarge 4 buffer (offset + 1) _ 7 1

theorem decodeVarInt_underflow_iff (buffer : List Nat) (offset : Nat) :
    decodeVarInt buffer offset = .error .bufferUnderflow ↔
      (buffer.length ≤ offset ∨
        (buffer.length - offset < 5 ∧
          ∀ j, offset + j < buffer.length → buffer.getD (offset + j) 0 &&& 128 ≠ 0)) := by
  simp only [decodeVarInt]
  by_cases hoff : buffer.length ≤ offset
  · rw [if_pos hoff]
    simp [hoff]
  · rw [if_neg hoff]
    push_neg at hoff
    by_cases hterm : buffer.getD offset 0 &&& 128 = 0
    · rw [if_pos hterm]
      constructor
      · intro h
        exact absurd h (by simp)
      · rintro (h | ⟨h1, h2⟩)
        · exact absurd h (by omega)
        · exact absurd hterm (h2 0 (by omega))
    · rw [if_neg hterm]
      rw [decodeVarIntLoop_underflow_iff 4 buffer (offset + 1) _ 7 1 (by omega)]
      constructor
      · rintro ⟨h1, h2⟩
        right
        refine ⟨by omega, ?_⟩
        intro j hj
        cases j with
        | zero => simpa using hterm
        | succ j' =>
          have hj' := h2 j' (by omega)
          have e : offset + 1 + j' = offset + (j' + 1) := by omega
          rwa [e] at hj'
      · rintro (h | ⟨h1, h2⟩)
        · exact absurd h (by omega)
        · refine ⟨by omega, ?_⟩
          intro j hj
          have hj' := h2 (j + 1) (by omega)
          have e : offset + (j + 1) = offset + 1 + j := by omega
          rwa [e] at hj'

theorem decodeVarInt_malformed_iff (buffer : List Nat) (offset : Nat) :
    decodeVarInt buffer offset = .error .malformed ↔
      ∀ j, j < 5 → offset + j < buffer.length ∧ buffer.getD (offset + j) 0 &&& 128 ≠ 0 := by
  simp only [decodeVarInt]
  by_cases hoff : buffer.length ≤ offset
  · rw [if_pos hoff]
    constructor
    · intro h
      exact absurd h (by simp)
    · intro h
      exact absurd (h 0 (by omega)).1 (by omega)
  · rw [if_neg hoff]
    push_neg at hoff
    by_cases hterm : buffer.getD offset 0 &&& 128 = 0
    · rw [if_pos hterm]
      constructor
      · intro h
        exact absurd h (by simp)
      · intro h
        exact absurd hterm (h 0 (by omega)).2
    · rw [if_neg hterm]
      rw [decodeVarIntLoop_malformed_iff 4 buffer (offset + 1) _ 7 1 (by omega)]
      constructor
      · intro h j hj
        cases j with
        | zero => exact ⟨by omega, by simpa using hterm⟩
        | succ j' =>
          have hj' := h j' (by omega)
          have e : offset + 1 + j' = offset + (j' + 1) := by omega
          rw [e] at hj'
          exact ⟨hj'.1, hj'.2⟩
      · intro h j hj
        have hj' := h (j + 1) (by omega)
        have e : offset + (j + 1) = offset + 1 + j := by omega
        rw [e] at hj'
        exact ⟨hj'.1, hj'.2⟩

/-- C2.  `decodeVarInt` error discrimination: it fails with the
`BufferUnderflow` code exactly when the offset is at or past the buffer end,
or when every available byte (fewer than five of them) carries the
continuation bit so that another byte is expected but the buffer ends first;
it fails with the `Malformed` code exactly when five bytes are available and
all five carry the continuation bit (hence a 6-byte all-continuation buffer is
`Malformed`, not underflow); in every other case it returns a value. -/
theorem decodeVarInt_error_discrimination (buffer : List Nat) (offset : Nat) :
    (decodeVarInt buffer offset = .error .bufferUnderflow ↔
      (buffer.length ≤ offset ∨
        (buffer.length - offset < 5 ∧
          ∀ j, offset + j < buffer.length → buffer.getD (offset + j) 0 &&& 128 ≠ 0)))
    ∧ (decodeVarInt buffer offset = .error .malformed ↔
        ∀ j, j < 5 → offset + j < buffer.length ∧ buffer.getD (offset + j) 0 &&& 128 ≠ 0)
    ∧ ((∃ r, decodeVarInt buffer offset = .ok r) ↔
        ∃ j, j < 5 ∧ offset + j < buffer.length ∧ buffer.getD (offset + j) 0 &&& 128 = 0) := by
  refine ⟨decodeVarInt_underflow_iff buffer offset, decodeVarInt_malformed_iff buffer offset, ?_⟩
  have htri : (∃ r, decodeVarInt buffer offset = .ok r) ↔
      (decodeVarInt buffer offset ≠ .error .bufferUnderflow ∧
        decodeVarInt buffer offset ≠ .error .malformed) := by
    have hne := decodeVarInt_ne_tooLarge buffer offset
    cases h : decodeVarInt buffer offset with
    | ok r => simp
    | error e =>
      rw [h] at hne
      cases e <;> simp_all
  refine htri.trans ?_
  constructor
  · rintro ⟨hnu, hnm⟩
    have hnu' : ¬(buffer.length ≤ offset ∨
        (buffer.length - offset < 5 ∧
          ∀ j, offset + j < buffer.length → buffer.getD (offset + j) 0 &&& 128 ≠ 0)) :=
      fun hc => hnu ((decodeVarInt_underflow_iff buffer offset).mpr hc)
    have hnm' : ¬(∀ j, j < 5 →
        offset + j < buffer.length ∧ buffer.getD (offset + j) 0 &&& 128 ≠ 0) :=
      fun hc => hnm ((decodeVarInt_malformed_iff buffer offset).mpr hc)
    push_neg at hnu' hnm'
    obtain ⟨hoff2, hrest⟩ := hnu'
    obtain ⟨j, hj5, hcl⟩ := hnm'
    by_cases hinb : offset + j < buffer.length
    · exact ⟨j, hj5, hinb, hcl hinb⟩
    · have h5 : buffer.length - offset < 5 := by omega
      obtain ⟨j', hinb', hcl'⟩ := hrest h5
      exact ⟨j', by omega, hinb', hcl'⟩
  · rintro ⟨j, hj5, hinb, hcl⟩
    constructor
    · intro he
      rcases (decodeVarInt_underflow_iff buffer offset).mp he with h | ⟨h1, h2⟩
      · exact absurd hinb (by omega)
      · exact (h2 j hinb) hcl
    · intro he
      exact ((decodeVarInt_malformed_iff buffer offset).mp he j hj5).2 hcl

/-! ## Single-shot settlement of the socket state machines -/

theorem javaCleanup_of_completed {s : JavaState} (h : s.isCleanupCompleted = true) :
    javaCleanup s = s := by
  simp [javaCleanup, h]

theorem javaSettle_of_settled {s : JavaState} (h : s.settled ≠ []) (o : JavaOutcome) :
    javaSettle s o = s := by
  unfold javaSettle
  cases hs : s.settled with
  | nil => exact absurd hs h
  | cons a l => rfl

theorem javaCleanup_idem (s : JavaState) : javaCleanup (javaCleanup s) = javaCleanup s := by
  by_cases h : s.isCleanupCompleted = true
  · rw [javaCleanup_of_completed h, javaCleanup_of_completed h]
  · have h2 : (javaCleanup s).isCleanupCompleted = true := by
      unfold javaCleanup
      rw [if_neg h]
    rw [javaCleanup_of_completed h2]

theorem javaStep_terminal {s : JavaState} (h1 : s.isCleanupCompleted = true)
    (h2 : s.settled ≠ []) (e : JavaEvent) : javaStep s e = s := by
  cases e with
  | errorEvt er =>
    simp [javaStep, javaCleanup_of_completed h1, javaSettle_of_settled h2]
  | closeEvt =>
    simp [javaStep, h1]
  | dataComplete r =>
    simp [javaStep, javaCleanup_of_completed h1, javaSettle_of_settled h2]
  | dataWait => rfl

theorem foldl_javaStep_terminal {s : JavaState} (h1 : s.isCleanupCompleted = true)
    (h2 : s.settled ≠ []) (evs : List JavaEvent) : evs.foldl javaStep s = s := by
  induction evs with
  | nil => rfl
  | cons e rest ih =>
    rw [List.foldl_cons, javaStep_terminal h1 h2]
    exact ih

theorem javaStep_init {e : JavaEvent} (he : e ≠ .dataWait) :
    javaStep javaInit e = { isCleanupCompleted := true, destroyCalls := 1, clearTimeoutCalls := 1, settled := [javaOutcomeOf e] } := by
  cases e with
  | errorEvt er => rfl
  | closeEvt => rfl
  | dataComplete r => rfl
  | dataWait => exact absurd rfl he

theorem runJava_cons (e : JavaEvent) (evs : List JavaEvent) :
    runJava (e :: evs) = evs.foldl javaStep (javaStep javaInit e) := rfl

theorem runJava_append (evs1 evs2 : List JavaEvent) :
    runJava (evs1 ++ evs2) = evs2.foldl javaStep (runJava evs1) := by
  simp [runJava, List.foldl_append]

theorem bedrockCleanup_of_completed {s : BedrockState} (h : s.isCleanupCompleted = true) :
    bedrockCleanup s = s := by
  simp [bedrockCleanup, h]

theorem bedrockSettle_of_settled {s : BedrockState} (h : s.settled ≠ []) (o : BedrockOutcome) :
    bedrockSettle s o = s := by
  unfold bedrockSettle
  cases hs : s.settled with
  | nil => exact absurd hs h
  | cons a l => rfl

theorem bedrockCleanup_idem (s : BedrockState) :
    bedrockCleanup (bedrockCleanup s) = bedrockCleanup s := by
  by_cases h : s.isCleanupCompleted = true
  · rw [bedrockCleanup_of_completed h, bedrockCleanup_of_completed h]
  · have h2 : (bedrockCleanup s).isCleanupCompleted = true := by
      unfold bedrockCleanup
      rw [if_neg h]
    rw [bedrockCleanup_of_completed h2]

theorem bedrockStep_terminal {s : BedrockState} (h1 : s.isCleanupCompleted = true)
    (h2 : s.settled ≠ []) (e : BedrockEvent) : bedrockStep s e = s := by
  cases e with
  | errorEvt er =>
    simp [bedrockStep, bedrockCleanup_of_completed h1, bedrockSettle_of_settled h2]
  | message d =>
    simp only [bedrockStep]
    cases parseUnconnectedPong d with
    | ok m => simp [bedrockCleanup_of_completed h1, bedrockSettle_of_settled h2]
    | error er => simp [bedrockCleanup_of_completed h1, bedrockSettle_of_settled h2]

theorem foldl_bedrockStep_terminal {s : BedrockState} (h1 : s.isCleanupCompleted = true)
    (h2 : s.settled ≠ []) (evs : List BedrockEvent) : evs.foldl bedrockStep s = s := by
  induction evs with
  | nil => rfl
  | cons e rest ih =>
    rw [List.foldl_cons, bedrockStep_terminal h1 h2]
    exact ih

theorem bedrockStep_init (e : BedrockEvent) :
    bedrockStep bedrockInit e = { isCleanupCompleted := true, closeCalls := 1, clearTimeoutCalls := 1, settled := [bedrockOutcomeOf e] } := by
  cases e with
  | errorEvt er => rfl
  | message d =>
    simp only [bedrockStep, bedrockOutcomeOf]
    cases parseUnconnectedPong d with
    | ok m => rfl
    | error er => rfl

theorem runBedrock_cons (e : BedrockEvent) (evs : List BedrockEvent) :
    runBedrock (e :: evs) = evs.foldl bedrockStep (bedrockStep bedrockInit e) := rfl

/-- C4.  Single terminal outcome per request: for any first terminal event
followed by any further events, a `pingJava` request ends with exactly one
settlement (the first terminal cause), exactly one socket destroy and one
timeout clear, and `cleanup` is idempotent; the same holds for `pingBedrock`
(whose socket release is `close`).  Later error events change nothing: they
are dropped. -/
theorem single_terminal_outcome :
    (∀ (e : JavaEvent) (evs : List JavaEvent), e ≠ .dataWait →
      runJava (e :: evs) = { isCleanupCompleted := true, destroyCalls := 1, clearTimeoutCalls := 1, settled := [javaOutcomeOf e] })
    ∧ (∀ s : JavaState, javaCleanup (javaCleanup s) = javaCleanup s)
    ∧ (∀ (e : BedrockEvent) (evs : List BedrockEvent),
      runBedrock (e :: evs) = { isCleanupCompleted := true, closeCalls := 1, clearTimeoutCalls := 1, settled := [bedrockOutcomeOf e] })
    ∧ (∀ s : BedrockState, bedrockCleanup (bedrockCleanup s) = bedrockCleanup s) := by
  refine ⟨?_, javaCleanup_idem, ?_, bedrockCleanup_idem⟩
  · intro e evs he
    rw [runJava_cons, javaStep_init he]
    exact foldl_javaStep_terminal rfl (by simp) evs
  · intro e evs
    rw [runBedrock_cons, bedrockStep_init]
    exact foldl_bedrockStep_terminal rfl (by simp) evs

/-- Witness for C4: a close event followed by a late error settles once with
the premature close rejection, destroying the socket and clearing the timeout
exactly once; concrete bedrock run included. -/
theorem single_terminal_outcome_witness :
    (JavaEvent.closeEvt ≠ JavaEvent.dataWait ∧
      runJava [JavaEvent.closeEvt, JavaEvent.errorEvt .timeoutErr] =
        { isCleanupCompleted := true, destroyCalls := 1, clearTimeoutCalls := 1, settled := [.rejected .prematureClose] })
    ∧ runBedrock [BedrockEvent.errorEvt .timeoutErr, BedrockEvent.errorEvt .timeoutErr] =
        { isCleanupCompleted := true, closeCalls := 1, clearTimeoutCalls := 1, settled := [.rejected .timeoutErr] } :=
  ⟨⟨by decide,
    single_terminal_outcome.1 JavaEvent.closeEvt [JavaEvent.errorEvt .timeoutErr] (by decide)⟩,
    single_terminal_outcome.2.2.1 (BedrockEvent.errorEvt .timeoutErr)
      [BedrockEvent.errorEvt .timeoutErr]⟩

/-- C8.  A close event arriving while no terminal outcome has fired rejects
the request with the dedicated premature-close error (not a timeout and not a
transport error); a close event arriving after cleanup has completed leaves
the request state unchanged, so it causes no further rejection. -/
theorem premature_close_distinct :
    (∀ evs : List JavaEvent, (∀ x ∈ evs, x = .dataWait) →
      (runJava (evs ++ [.closeEvt])).settled = [.rejected .prematureClose])
    ∧ (∀ evs : List JavaEvent, (runJava evs).isCleanupCompleted = true →
      runJava (evs ++ [.closeEvt]) = runJava evs) := by
  constructor
  · intro evs hall
    have hinit : runJava evs = javaInit := by
      unfold runJava
      induction evs with
      | nil => rfl
      | cons e rest ih =>
        have he : e = .dataWait := hall e (by simp)
        rw [List.foldl_cons, he]
        exact ih fun x hx => hall x (by simp [hx])
    rw [runJava_append, hinit]
    rfl
  · intro evs h
    rw [runJava_append]
    have : javaStep (runJava evs) .closeEvt = runJava evs := by
      simp [javaStep, h]
    simp [this]

/-- Witness for C8: one incomplete-data event then close rejects with the
premature close error; a second close after a first one changes nothing. -/
theorem premature_close_distinct_witness :
    ((∀ x ∈ [JavaEvent.dataWait], x = JavaEvent.dataWait) ∧
      (runJava ([JavaEvent.dataWait] ++ [.closeEvt])).settled =
        [.rejected .prematureClose])
    ∧ ((runJava [JavaEvent.closeEvt]).isCleanupCompleted = true ∧
      runJava ([JavaEvent.closeEvt] ++ [.closeEvt]) = runJava [JavaEvent.closeEvt]) :=
  ⟨⟨by simp, premature_close_distinct.1 [JavaEvent.dataWait] (by simp)⟩,
    ⟨by decide, premature_close_distinct.2 [JavaEvent.closeEvt] (by decide)⟩⟩

/-! ## Incremental TCP response parsing -/

theorem jsSubarray_natCast (buf : List Nat) (a b : Nat) :
    jsSubarray buf (a : Int) (b : Int) = (buf.drop a).take (b - a) := by
  simp only [jsSubarray]
  have hna : ¬((a : Int) < 0) := by omega
  have hnb : ¬((b : Int) < 0) := by omega
  rw [if_neg hna, if_neg hnb]
  have hsa : min (max (a : Int) 0) (buf.length : Int) = min (a : Int) (buf.length : Int) := by
    omega
  have hsb : min (max (b : Int) 0) (buf.length : Int) = min (b : Int) (buf.length : Int) := by
    omega
  rw [hsa, hsb]
  by_cases hle : min (b : Int) (buf.length : Int) ≤ min (a : Int) (buf.length : Int)
  · rw [if_pos hle]
    by_cases hba : b ≤ a
    · have : b - a = 0 := by omega
      rw [this]
      simp
    · have hlen : buf.length ≤ a := by omega
      rw [List.drop_eq_nil_of_le hlen]
      simp
  · rw [if_neg hle]
    have hstoNat : (min (a : Int) (buf.length : Int)).toNat = min a buf.length := by omega
    have hdiff : (min (b : Int) (buf.length : Int) - min (a : Int) (buf.length : Int)).toNat =
        min b buf.length - min a buf.length := by omega
    rw [hstoNat, hdiff]
    by_cases halen : a ≤ buf.length
    · have hmina : min a buf.length = a := by omega
      rw [hmina]
      by_cases hblen : b ≤ buf.length
      · have hminb : min b buf.length = b := by omega
        rw [hminb]
      · have hminb : min b buf.length = buf.length := by omega
        rw [hminb]
        have hdroplen : (buf.drop a).length = buf.length - a := List.length_drop a buf
        rw [List.take_of_length_le (by omega), List.take_of_length_le (by omega)]
    · have hmina : min a buf.length = buf.length := by omega
      rw [List.drop_eq_nil_of_le (by omega), List.drop_eq_nil_of_le (by omega)]
      simp

/-- C3.  Incremental parse of the accumulated TCP buffer: a varint underflow
at the overall length, the packet ID, or the JSON length returns the
recoverable wait state (`.ok none`, not an error), as does a buffer shorter
than the decoded overall length or the decoded JSON length; a nonzero packet
ID and an unparsable JSON body are terminal errors; otherwise the parsed body
is returned together with all bytes beyond the consumed packet as the
remainder for a later parse pass. -/
theorem processResponse_incremental_parse (α : Type) (parse : List Nat → Option α)
    (buffer : List Nat) :
    (decodeVarInt buffer 0 = .error .bufferUnderflow →
      processResponse parse buffer = .ok none)
    ∧ (∀ r1, decodeVarInt buffer 0 = .ok r1 →
        (buffer.length : Int) < (r1.bytesRead : Int) + r1.value →
        processResponse parse buffer = .ok none)
    ∧ (∀ r1, decodeVarInt buffer 0 = .ok r1 →
        ¬((buffer.length : Int) < (r1.bytesRead : Int) + r1.value) →
        decodeVarInt buffer r1.bytesRead = .error .bufferUnderflow →
        processResponse parse buffer = .ok none)
    ∧ (∀ r1 rid, decodeVarInt buffer 0 = .ok r1 →
        ¬((buffer.length : Int) < (r1.bytesRead : Int) + r1.value) →
        decodeVarInt buffer r1.bytesRead = .ok rid → rid.value ≠ 0 →
        processResponse parse buffer = .error .unexpectedPacketId)
    ∧ (∀ r1 rid, decodeVarInt buffer 0 = .ok r1 →
        ¬((buffer.length : Int) < (r1.bytesRead : Int) + r1.value) →
        decodeVarInt buffer r1.bytesRead = .ok rid → rid.value = 0 →
        decodeVarInt buffer (r1.bytesRead + rid.bytesRead) = .error .bufferUnderflow →
        processResponse parse buffer = .ok none)
    ∧ (∀ r1 rid rj, decodeVarInt buffer 0 = .ok r1 →
        ¬((buffer.length : Int) < (r1.bytesRead : Int) + r1.value) →
        decodeVarInt buffer r1.bytesRead = .ok rid → rid.value = 0 →
        decodeVarInt buffer (r1.bytesRead + rid.bytesRead) = .ok rj →
        (buffer.length : Int) <
          ((r1.bytesRead + rid.bytesRead + rj.bytesRead : Nat) : Int) + rj.value →
        processResponse parse buffer = .ok none)
    ∧ (∀ r1 rid rj, decodeVarInt buffer 0 = .ok r1 →
        ¬((buffer.length : Int) < (r1.bytesRead : Int) + r1.value) →
        decodeVarInt buffer r1.bytesRead = .ok rid → rid.value = 0 →
        decodeVarInt buffer (r1.bytesRead + rid.bytesRead) = .ok rj → 0 ≤ rj.value →
        ¬((buffer.length : Int) <
          ((r1.bytesRead + rid.bytesRead + rj.bytesRead : Nat) : Int) + rj.value) →
        parse ((buffer.drop (r1.bytesRead + rid.bytesRead + rj.bytesRead)).take
          rj.value.toNat) = none →
        processResponse parse buffer = .error .jsonParse)
    ∧ (∀ r1 rid rj response, decodeVarInt buffer 0 = .ok r1 →
        ¬((buffer.length : Int) < (r1.bytesRead : Int) + r1.value) →
        decodeVarInt buffer r1.bytesRead = .ok rid → rid.value = 0 →
        decodeVarInt buffer (r1.bytesRead + rid.bytesRead) = .ok rj → 0 ≤ rj.value →
        ¬((buffer.length : Int) <
          ((r1.bytesRead + rid.bytesRead + rj.bytesRead : Nat) : Int) + rj.value) →
        parse ((buffer.drop (r1.bytesRead + rid.bytesRead + rj.bytesRead)).take
          rj.value.toNat) = some response →
        processResponse parse buffer =
          .ok (some (response,
            buffer.drop (r1.bytesRead + rid.bytesRead + rj.bytesRead + rj.value.toNat)))) := by
  have hjson : ∀ (o3 : Nat) (v : Int), 0 ≤ v →
      jsSubarray buffer (o3 : Int) ((o3 : Int) + v) = (buffer.drop o3).take v.toNat := by
    intro o3 v hv
    have hb : (o3 : Int) + v = ((o3 + v.toNat : Nat) : Int) := by omega
    rw [hb, jsSubarray_natCast]
    congr 1
    omega
  have hrem : ∀ (o3 : Nat) (v : Int), 0 ≤ v →
      jsSubarray buffer ((o3 : Int) + v) (buffer.length : Int) =
        buffer.drop (o3 + v.toNat) := by
    intro o3 v hv
    have hb : (o3 : Int) + v = ((o3 + v.toNat : Nat) : Int) := by omega
    rw [hb, jsSubarray_natCast, List.take_of_length_le]
    rw [List.length_drop]
  refine ⟨?_, ?_, ?_, ?_, ?_, ?_, ?_, ?_⟩
  · intro h1
    simp [processResponse, processResponseBody, h1]
  · intro r1 h1 hshort
    simp [processResponse, processResponseBody, h1, if_pos hshort]
  · intro r1 h1 hlong h2
    simp [processResponse, processResponseBody, h1, if_neg hlong, h2]
  · intro r1 rid h1 hlong h2 hid
    simp [processResponse, processResponseBody, h1, if_neg hlong, h2, if_pos hid]
  · intro r1 rid h1 hlong h2 hid h3
    simp [processResponse, processResponseBody, h1, if_neg hlong, h2, hid, h3]
  · intro r1 rid rj h1 hlong h2 hid h3 hshort
    push_cast at hshort
    simp [processResponse, processResponseBody, h1, if_neg hlong, h2, hid, h3, if_pos hshort]
  · intro r1 rid rj h1 hlong h2 hid h3 hv hlong2 hparse
    push_cast at hlong2
    have hj := hjson (r1.bytesRead + rid.bytesRead + rj.bytesRead) rj.value hv
    push_cast at hj
    simp [processResponse, processResponseBody, h1, if_neg hlong, h2, hid, h3,
      if_neg hlong2, hj, hparse]
  · intro r1 rid rj response h1 hlong h2 hid h3 hv hlong2 hparse
    push_cast at hlong2
    have hj := hjson (r1.bytesRead + rid.bytesRead + rj.bytesRead) rj.value hv
    have hr := hrem (r1.bytesRead + rid.bytesRead + rj.bytesRead) rj.value hv
    push_cast at hj hr
    simp [processResponse, processResponseBody, h1, if_neg hlong, h2, hid, h3,
      if_neg hlong2, hj, hr, hparse]

/-- Witness for C3: a complete framed packet `[4, 0, 2, 65, 66, 99]` (overall length
4, packet ID 0, JSON length 2, body `[65, 66]`, one pipelined byte `[99]`)
parses to the body with remainder `[99]`. -/
theorem processResponse_incremental_parse_witness :
    decodeVarInt [4, 0, 2, 65, 66, 99] 0 = .ok { value := 4, bytesRead := 1 } ∧
    ¬(((6 : Nat) : Int) < ((1 : Nat) : Int) + (4 : Int)) ∧
    decodeVarInt [4, 0, 2, 65, 66, 99] 1 = .ok { value := 0, bytesRead := 1 } ∧
    decodeVarInt [4, 0, 2, 65, 66, 99] 2 = .ok { value := 2, bytesRead := 1 } ∧
    processResponse (fun bs => some bs) [4, 0, 2, 65, 66, 99] =
      .ok (some ([65, 66], [99])) := by
  refine ⟨by rfl, by norm_num, by rfl, by rfl, ?_⟩
  have h := (processResponse_incremental_parse (List Nat) (fun bs => some bs)
    [4, 0, 2, 65, 66, 99]).2.2.2.2.2.2.2 { value := 4, bytesRead := 1 }
    { value := 0, bytesRead := 1 } { value := 2, bytesRead := 1 } [65, 66]
    (by rfl) (by norm_num) (by rfl) (by norm_num) (by rfl) (by norm_num)
    (by norm_num) (by rfl)
  simpa using h

/-! ## The handshake carries the original virtual host -/

theorem toUint32_zero : toUint32 0 = 0 := by
  unfold toUint32
  norm_num

theorem toUint32_one : toUint32 1 = 1 := by
  unfold toUint32
  norm_num

theorem encBytes_zero : encBytes 0 = [0] := by
  rw [encBytes]
  norm_num

theorem encBytes_one : encBytes 1 = [1] := by
  rw [encBytes]
  norm_num

theorem encodeVarInt_zero : encodeVarInt 0 = .ok [0] := by
  rw [encodeVarInt_eq, toUint32_zero, encBytes_zero]

theorem encodeVarInt_one : encodeVarInt 1 = .ok [1] := by
  rw [encodeVarInt_eq, toUint32_one, encBytes_one]

theorem createStatusRequestPacket_eq : createStatusRequestPacket = .ok [1, 0] := by
  simp only [createStatusRequestPacket, encodeVarInt_zero, concatPackets]
  simp [encodeVarInt_one]

/-- C7.  Handshake virtual host: when SRV resolution substitutes a different
target host, the handshake written on connect is framed as the varint length
of its payload followed by packet ID 0, the protocol version varint, the
varint byte length of the ORIGINAL caller-supplied host, the original host
bytes themselves (not the SRV name), the resolved port as a big-endian
unsigned short, and next-state 1; it is followed by the independently framed
zero-payload status request `[1, 0]`. -/
theorem handshake_virtual_host (host srvHost : List Nat) (srvPort fallbackPort : Nat)
    (protocolVersion : Int) (hne : srvHost ≠ host) (hport : srvPort < 65536) :
    ∃ pvB hlB lenB,
      encodeVarInt protocolVersion = .ok pvB ∧
      encodeVarInt ((encodeString host).length : Int) = .ok hlB ∧
      encodeVarInt ((([0] ++ pvB ++ hlB ++ encodeString host ++
        encodeUShort srvPort ++ [1] : List Nat).length : Nat) : Int) = .ok lenB ∧
      resolveTarget host fallbackPort (some (srvHost, srvPort)) = (srvHost, srvPort) ∧
      encodeUShort srvPort = [srvPort / 256, srvPort % 256] ∧
      connectWrites host fallbackPort (some (srvHost, srvPort)) protocolVersion =
        .ok (lenB ++ ([0] ++ pvB ++ hlB ++ encodeString host ++
          encodeUShort srvPort ++ [1]), [1, 0]) := by
  refine ⟨encBytes (toUint32 protocolVersion),
    encBytes (toUint32 ((encodeString host).length : Int)),
    encBytes (toUint32 ((([0] ++ encBytes (toUint32 protocolVersion) ++
      encBytes (toUint32 ((encodeString host).length : Int)) ++ encodeString host ++
      encodeUShort srvPort ++ [1] : List Nat).length : Nat) : Int)),
    encodeVarInt_eq protocolVersion, encodeVarInt_eq _, encodeVarInt_eq _, rfl, ?_, ?_⟩
  · have hdiv : srvPort / 256 % 256 = srvPort / 256 := Nat.mod_eq_of_lt (by omega)
    simp [encodeUShort, hdiv]
  · have hflat : ([[0], encBytes (toUint32 protocolVersion),
        encBytes (toUint32 ((encodeString host).length : Int)), encodeString host,
        encodeUShort srvPort, [1]] : List (List Nat)).flatten =
        [0] ++ encBytes (toUint32 protocolVersion) ++
          encBytes (toUint32 ((encodeString host).length : Int)) ++ encodeString host ++
          encodeUShort srvPort ++ [1] := by
      simp
    have hHS : createHandshakePacket host srvPort protocolVersion =
        .ok (encBytes (toUint32 ((([0] ++ encBytes (toUint32 protocolVersion) ++
          encBytes (toUint32 ((encodeString host).length : Int)) ++ encodeString host ++
          encodeUShort srvPort ++ [1] : List Nat).length : Nat) : Int)) ++
          ([0] ++ encBytes (toUint32 protocolVersion) ++
            encBytes (toUint32 ((encodeString host).length : Int)) ++ encodeString host ++
            encodeUShort srvPort ++ [1])) := by
      simp only [createHandshakePacket, encodeVarInt_zero, encodeVarInt_one,
        encodeVarInt_eq, concatPackets, hflat]
      simp [toUint32_zero, toUint32_one, encBytes_zero, encBytes_one]
    have hres : (resolveTarget host fallbackPort (some (srvHost, srvPort))).2 = srvPort := rfl
    simp only [connectWrites, hres, hHS, createStatusRequestPacket_eq]

/-! ## Bedrock MOTD mapping and pong validation -/

/-- C5.  Bedrock MOTD record mapping: a semicolon split with at least five
fields whose GUID slot converts maps positionally into the nested public
response: name fields pass through, numeric strings become numbers, the GUID
becomes the 64-bit integer `g`, the nintendo-limited flag maps `"0"` to
`true`, `"1"` to `false` and anything else (including absent) to `undefined`,
the ports and editor-mode flag convert only when present and non-empty; with
only the nine leading fields all four trailing options are `undefined`. -/
theorem bedrock_motd_mapping (motdString : List Nat) (parts : List (List Nat)) (g : Int)
    (hp : splitOnSemi motdString = parts) (h5 : 5 ≤ parts.length)
    (hg : jsBigInt parts[6]? = .ok g) :
    ∃ motd, parseMotd motdString = .ok motd ∧ motd.serverGuid = g ∧
      transformMotd motd =
        { edition := parts[0]?
          name := parts[1]?
          levelName := parts[7]?
          gamemode := parts[8]?
          version := { protocol := jsNumber parts[2]?, minecraft := parts[3]? }
          players := { online := jsNumber parts[4]?, max := jsNumber parts[5]? }
          port :=
            { v4 := (match parts[10]? with
                | none => none
                | some ([] : List Nat) => none
                | some s => some (jsNumber (some s)))
              v6 := (match parts[11]? with
                | none => none
                | some ([] : List Nat) => none
                | some s => some (jsNumber (some s))) }
          guid := g
          isNintendoLimited :=
            if parts[9]? = some [48] then some true
            else if parts[9]? = some [49] then some false
            else none
          isEditorModeEnabled := (match parts[12]? with
            | none => none
            | some ([] : List Nat) => none
            | some s => (match jsNumber (some s) with
              | some v => some (if v = 0 then false else true)
              | none => some false)) } ∧
      (parts.length = 9 →
        (transformMotd motd).isNintendoLimited = none ∧
        (transformMotd motd).port.v4 = none ∧
        (transformMotd motd).port.v6 = none ∧
        (transformMotd motd).isEditorModeEnabled = none) := by
  have hP : parseMotd motdString =
      .ok { edition := parts[0]?
            name := parts[1]?
            protocol := jsNumber parts[2]?
            version := parts[3]?
            playerCount := jsNumber parts[4]?
            playerMax := jsNumber parts[5]?
            serverGuid := g
            subName := parts[7]?
            gamemode := parts[8]?
            nintendoLimited :=
              if parts[9]? = some [48] then some true
              else if parts[9]? = some [49] then some false
              else none
            port := (match parts[10]? with
              | none => none
              | some ([] : List Nat) => none
              | some s => some (jsNumber (some s)))
            ipv6Port := (match parts[11]? with
              | none => none
              | some ([] : List Nat) => none
              | some s => some (jsNumber (some s)))
            editorMode := (match parts[12]? with
              | none => none
              | some ([] : List Nat) => none
              | some s => (match jsNumber (some s) with
                | some v => some (if v = 0 then false else true)
                | none => some false)) } := by
    simp only [parseMotd, hp]
    rw [if_neg (by omega), hg]
  refine ⟨_, hP, rfl, rfl, ?_⟩
  intro h9
  have h9n : parts[9]? = none := List.getElem?_eq_none (by omega)
  have h10n : parts[10]? = none := List.getElem?_eq_none (by omega)
  have h11n : parts[11]? = none := List.getElem?_eq_none (by omega)
  have h12n : parts[12]? = none := List.getElem?_eq_none (by omega)
  simp [transformMotd, h9n, h10n, h11n, h12n]

/-- Witness for C5 at a 9-field MOTD: the mapping holds and all four optional
outputs are absent. -/
theorem bedrock_motd_mapping_witness :
    splitOnSemi (asciiBytes ("MCPE;S;390;1.14.60;5;10;123;L;Survival")) =
      splitOnSemi (asciiBytes ("MCPE;S;390;1.14.60;5;10;123;L;Survival")) ∧
    5 ≤ (splitOnSemi (asciiBytes ("MCPE;S;390;1.14.60;5;10;123;L;Survival"))).length ∧
    jsBigInt (splitOnSemi (asciiBytes ("MCPE;S;390;1.14.60;5;10;123;L;Survival")))[6]? =
      .ok 123 ∧
    ∃ motd, parseMotd (asciiBytes ("MCPE;S;390;1.14.60;5;10;123;L;Survival")) = .ok motd ∧
      motd.serverGuid = 123 ∧
      (splitOnSemi (asciiBytes ("MCPE;S;390;1.14.60;5;10;123;L;Survival"))).length = 9 ∧
      (transformMotd motd).isNintendoLimited = none ∧
      (transformMotd motd).port.v4 = none ∧
      (transformMotd motd).port.v6 = none ∧
      (transformMotd motd).isEditorModeEnabled = none := by
  refine ⟨rfl, by decide, by rfl, ?_⟩
  obtain ⟨motd, hP, hg, _, hopt⟩ := bedrock_motd_mapping
    (asciiBytes ("MCPE;S;390;1.14.60;5;10;123;L;Survival"))
    (splitOnSemi (asciiBytes ("MCPE;S;390;1.14.60;5;10;123;L;Survival"))) 123
    rfl (by decide) (by rfl)
  have h9 : (splitOnSemi (asciiBytes ("MCPE;S;390;1.14.60;5;10;123;L;Survival"))).length = 9 := by
    decide
  obtain ⟨ha, hb, hc, hd⟩ := hopt h9
  exact ⟨motd, hP, hg, h9, ha, hb, hc, hd⟩

/-- C10.  The five-field MOTD validation is not sufficient: with exactly five
or six fields `parseMotd` passes its field-count check but still throws,
because the absent seventh slot makes the `BigInt` conversion fail with a
`TypeError`; and success requires at least seven fields with a seventh slot
the `BigInt` conversion accepts. -/
theorem parseMotd_guid_requirement :
    (∀ motdString : List Nat, 5 ≤ (splitOnSemi motdString).length →
      (splitOnSemi motdString).length ≤ 6 →
      parseMotd motdString = .error (.guidThrow .typeError))
    ∧ (∀ (motdString : List Nat) (m : BedrockMotd), parseMotd motdString = .ok m →
        7 ≤ (splitOnSemi motdString).length ∧
          jsBigInt (splitOnSemi motdString)[6]? = .ok m.serverGuid) := by
  constructor
  · intro motdString h5 h6
    have h6n : (splitOnSemi motdString)[6]? = none := List.getElem?_eq_none (by omega)
    simp only [parseMotd]
    rw [if_neg (by omega), h6n]
    rfl
  · intro motdString m hm
    simp only [parseMotd] at hm
    by_cases h5 : (splitOnSemi motdString).length < 5
    · rw [if_pos h5] at hm
      exact absurd hm (by simp)
    · rw [if_neg h5] at hm
      cases hg : jsBigInt (splitOnSemi motdString)[6]? with
      | error e =>
        rw [hg] at hm
        exact absurd hm (by simp)
      | ok gv =>
        rw [hg] at hm
        have hguid : m.serverGuid = gv := by
          have hrec := hm
          simp only [Except.ok.injEq] at hrec
          rw [← hrec]
        constructor
        · by_contra h7
          push_neg at h7
          have h6n : (splitOnSemi motdString)[6]? = none := List.getElem?_eq_none (by omega)
          rw [h6n] at hg
          exact absurd hg (by simp [jsBigInt])
        · rw [hguid]

/-- Witness for C10: the five-field record `"a;b;c;d;e"` passes the count
check and throws the `BigInt` `TypeError`. -/
theorem parseMotd_guid_requirement_witness :
    5 ≤ (splitOnSemi (asciiBytes ("a;b;c;d;e"))).length ∧
    (splitOnSemi (asciiBytes ("a;b;c;d;e"))).length ≤ 6 ∧
    parseMotd (asciiBytes ("a;b;c;d;e")) = .error (.guidThrow .typeError) :=
  ⟨by decide, by decide,
    parseMotd_guid_requirement.1 (asciiBytes ("a;b;c;d;e")) (by decide) (by decide)⟩

/-- C6.  Bedrock pong envelope validation: the envelope extraction fails with
a protocol error exactly when the datagram is shorter than 35 bytes, its
leading byte is not `0x1c`, or offset 35 plus the big-endian length at offset
33 exceeds the datagram; otherwise it yields exactly that many bytes from
offset 35 as the MOTD string; and any datagram whose parse fails produces a
single rejection of the query through the error handler rather than an
uncaught throw. -/
theorem unconnected_pong_validation :
    (∀ pongPacket : List Nat,
      (∃ e, extractMotdBytes pongPacket = .error e) ↔
        (pongPacket.length < 35 ∨ pongPacket.getD 0 0 ≠ 28 ∨
          pongPacket.length < 35 + readUInt16BE pongPacket 33))
    ∧ (∀ pongPacket : List Nat, ¬(pongPacket.length < 35) →
        pongPacket.getD 0 0 = 28 →
        ¬(pongPacket.length < 35 + readUInt16BE pongPacket 33) →
        extractMotdBytes pongPacket =
          .ok ((pongPacket.drop 35).take (readUInt16BE pongPacket 33)))
    ∧ (∀ (pongPacket : List Nat) (e : BedrockError),
        parseUnconnectedPong pongPacket = .error e →
        runBedrock [.message pongPacket] =
          { isCleanupCompleted := true, closeCalls := 1, clearTimeoutCalls := 1, settled := [.rejected (.protocol e)] }) := by
  refine ⟨?_, ?_, ?_⟩
  · intro pongPacket
    simp only [extractMotdBytes]
    by_cases h35 : pongPacket.length < 35
    · rw [if_pos h35]
      constructor
      · intro _
        exact Or.inl h35
      · intro _
        exact ⟨_, rfl⟩
    · rw [if_neg h35]
      by_cases hid : pongPacket.getD 0 0 ≠ 28
      · rw [if_pos hid]
        constructor
        · intro _
          exact Or.inr (Or.inl hid)
        · intro _
          exact ⟨_, rfl⟩
      · rw [if_neg hid]
        push_neg at hid
        by_cases hlen : pongPacket.length < 35 + readUInt16BE pongPacket 33
        · rw [if_pos hlen]
          constructor
          · intro _
            exact Or.inr (Or.inr hlen)
          · intro _
            exact ⟨_, rfl⟩
        · rw [if_neg hlen]
          constructor
          · rintro ⟨e, he⟩
            exact absurd he (by simp)
          · rintro (h | h | h)
            · exact absurd h h35
            · exact absurd hid h
            · exact absurd h hlen
  · intro pongPacket h35 hid hlen
    simp only [extractMotdBytes]
    rw [if_neg h35, if_neg (show ¬(pongPacket.getD 0 0 ≠ 28) from fun hc => hc hid),
      if_neg hlen]
  · intro pongPacket e he
    have hrun : runBedrock [.message pongPacket] = bedrockStep bedrockInit (.message pongPacket) :=
      rfl
    rw [hrun, bedrockStep_init]
    have hout : bedrockOutcomeOf (.message pongPacket) = .rejected (.protocol e) := by
      simp [bedrockOutcomeOf, he]
    rw [hout]

/-- Witness for C6: the empty datagram fails the envelope check and produces a
single rejection; a minimal valid 35-byte pong extracts the empty MOTD. -/
theorem unconnected_pong_validation_witness :
    (¬((28 :: List.replicate 34 0 : List Nat).length < 35) ∧
      (28 :: List.replicate 34 0 : List Nat).getD 0 0 = 28 ∧
      ¬((28 :: List.replicate 34 0 : List Nat).length <
        35 + readUInt16BE (28 :: List.replicate 34 0) 33) ∧
      extractMotdBytes (28 :: List.replicate 34 0) =
        .ok (((28 :: List.replicate 34 0 : List Nat).drop 35).take
          (readUInt16BE (28 :: List.replicate 34 0) 33))) ∧
    (parseUnconnectedPong [] = .error .pongTooSmall ∧
      runBedrock [.message []] =
        { isCleanupCompleted := true, closeCalls := 1, clearTimeoutCalls := 1, settled := [.rejected (.protocol .pongTooSmall)] }) :=
  ⟨⟨by decide, by decide, by decide,
    unconnected_pong_validation.2.1 (28 :: List.replicate 34 0) (by decide) (by decide)
      (by decide)⟩,
    ⟨by rfl, unconnected_pong_validation.2.2 [] .pongTooSmall (by rfl)⟩⟩

/-- Witness for C7 at a concrete SRV substitution: host `[104]`, SRV target
`[115]` on port 25565, protocol version -1. -/
theorem handshake_virtual_host_witness :
    ([115] : List Nat) ≠ [104] ∧ (25565 : Nat) < 65536 ∧
    ∃ pvB hlB lenB,
      encodeVarInt (-1) = .ok pvB ∧
      encodeVarInt ((encodeString [104]).length : Int) = .ok hlB ∧
      encodeVarInt ((([0] ++ pvB ++ hlB ++ encodeString [104] ++
        encodeUShort 25565 ++ [1] : List Nat).length : Nat) : Int) = .ok lenB ∧
      resolveTarget [104] 1234 (some ([115], 25565)) = ([115], 25565) ∧
      encodeUShort 25565 = [25565 / 256, 25565 % 256] ∧
      connectWrites [104] 1234 (some ([115], 25565)) (-1) =
        .ok (lenB ++ ([0] ++ pvB ++ hlB ++ encodeString [104] ++
          encodeUShort 25565 ++ [1]), [1, 0]) :=
  ⟨by decide, by decide,
    handshake_virtual_host [104] [115] 25565 1234 (-1) (by decide) (by decide)⟩

end Mineping
